import Mathlib

/-!
Verification of the noodles genomic-format library core against its
specification.  The Rust sources are shallowly embedded: machine integers
become Nat/Int with explicit reductions modulo 2^w at the casts, byte
output becomes List Nat, and fallible writers return Except.
-/

set_option maxRecDepth 4096

/-! ## Byte-level helpers (little-endian encodings, i32 casts) -/

/-- Little-endian byte encoding of a 16-bit value. -/
def u16LE (x : Nat) : List Nat := [x % 256, x / 256 % 256]

/-- Little-endian byte encoding of a 32-bit value. -/
def u32LE (x : Nat) : List Nat :=
  [x % 256, x / 256 % 256, x / 65536 % 256, x / 16777216 % 256]

/-- Reduce an integer into the value range of Rust's i32 (two's complement wrap). -/
def wrap32 (x : Int) : Int :=
  if x % 4294967296 < 2147483648 then x % 4294967296 else x % 4294967296 - 4294967296

/-- The value of `n as i32` for a Rust usize `n`. -/
def i32ofNat (n : Nat) : Int := wrap32 n

/-- Bytes of `write_i32::<LittleEndian>`: the two's-complement bit pattern, little-endian. -/
def i32LE (n : Int) : List Nat := u32LE (n % 4294967296).toNat

/-! ## noodles-bgzf: chunks and the chunk optimizer (`src/noodles-bgzf/src/index.rs`)

A `Chunk` is an ordered pair of virtual positions; a virtual position is a
64-bit value totally ordered as an unsigned integer, so both coordinates are
embedded as Nat. -/

/-- A BGZF chunk `(start, end)` of virtual positions (field `end_` because
`end` is a Lean keyword). -/
structure Chunk where
  start : Nat
  end_ : Nat
deriving DecidableEq, Repr

/-- The merge sweep of `optimize_chunks`: `current_chunk` is extended, emitted
or left unchanged while walking the sorted chunk list, and the trailing
current chunk is emitted at the end. -/
def mergeSweep (cur : Chunk) : List Chunk → List Chunk
  | [] => [cur]
  | next :: rest =>
    if cur.end_ < next.start then cur :: mergeSweep next rest
    else if cur.end_ < next.end_ then mergeSweep ⟨cur.start, next.end_⟩ rest
    else mergeSweep cur rest

/-- `optimize_chunks`: drop chunks with `end ≤ min_offset`, sort the rest by
start, and merge with the sweep. -/
def optimize_chunks (chunks : List Chunk) (minOffset : Nat) : List Chunk :=
  match (chunks.filter fun c => minOffset < c.end_).mergeSort (fun a b => a.start ≤ b.start) with
  | [] => []
  | c :: rest => mergeSweep c rest

/-! ## noodles-csi: bin-id limits (`src/noodles-csi/src/index/reference_sequence/bin.rs`)

`bin_limit` is `(1 << ((depth + 1) * 3)) / 7` on i32 after `assert!(depth <= 10)`.
An assertion failure or an overflowing shift (shift amount ≥ 32) panics, which
the embedding represents as `none`. -/

/-- `bin_limit`: `none` on `assert!(depth <= 10)` failure or on an i32 shift
overflow (`1 << s` with `s ≥ 32`), otherwise the i32 quotient. -/
def bin_limit (depth : Int) : Option Int :=
  if depth ≤ 10 then
    let s := (depth + 1) * 3
    if s < 32 then some (wrap32 (2 ^ s.toNat) / 7) else none
  else none

/-- `Bin::max_id`: `bin_limit(depth) as u32`. -/
def max_id (depth : Int) : Option Nat :=
  (bin_limit depth).map fun v => (v % 4294967296).toNat

/-- `Bin::metadata_id`: `max_id(depth) + 1` (u32 arithmetic). -/
def metadata_id (depth : Int) : Option Nat :=
  (max_id depth).map fun v => (v + 1) % 4294967296

/-! ## noodles-csi: `reg2bins` (`src/noodles-csi/src/index/reference_sequence.rs`)

The while loop walks levels `l = 0..=depth`, marking the ids
`t + (beg >> s) ..= t + (end >> s)` at each level; `s` starts at
`min_shift + depth * 3` and decreases by 3, `t` increases by `1 << (l * 3)`.
Arithmetic shift right on i64 is floor division by a power of two, which is
Lean's `/` on Int for positive divisors. -/

/-- The inclusive integer range `a ..= b` as a list (empty when `b < a`). -/
def intRangeIncl (a b : Int) : List Int :=
  if b < a then [] else (List.range ((b - a).toNat + 1)).map fun i : Nat => a + (i : Int)

/-- One iteration of the `reg2bins` while loop per unit of fuel; the fuel is
the number of remaining iterations, `depth + 1 - l`. -/
def reg2binsFrom (beg e : Int) : Nat → Nat → Int → Nat → List Int
  | 0, _, _, _ => []
  | fuel + 1, l, t, s =>
    intRangeIncl (t + beg / (2 : Int) ^ s) (t + e / (2 : Int) ^ s) ++
      reg2binsFrom beg e fuel (l + 1) (t + 2 ^ (3 * l)) (s - 3)

/-- `reg2bins`: the list of bin ids marked by the loop. -/
def reg2bins (beg e : Int) (minShift depth : Nat) : List Int :=
  reg2binsFrom beg e (depth + 1) 0 0 (minShift + depth * 3)

/-! ## noodles-bam: `region_to_bin` (`src/noodles-bam/src/writer/record.rs`) -/

/-- `region_to_bin` on a 0-based half-open interval: decrement `end`, then try
the shifts 14, 17, 20, 23, 26 in order; Rust's arithmetic shift right on i32
is floor division by a power of two (Lean's `/` on Int). -/
def region_to_bin (start e : Int) : Int :=
  if start / 2 ^ 14 = (e - 1) / 2 ^ 14 then ((2 ^ 15 - 1) / 7 : Int) + start / 2 ^ 14
  else if start / 2 ^ 17 = (e - 1) / 2 ^ 17 then ((2 ^ 12 - 1) / 7 : Int) + start / 2 ^ 17
  else if start / 2 ^ 20 = (e - 1) / 2 ^ 20 then ((2 ^ 9 - 1) / 7 : Int) + start / 2 ^ 20
  else if start / 2 ^ 23 = (e - 1) / 2 ^ 23 then ((2 ^ 6 - 1) / 7 : Int) + start / 2 ^ 23
  else if start / 2 ^ 26 = (e - 1) / 2 ^ 26 then ((2 ^ 3 - 1) / 7 : Int) + start / 2 ^ 26
  else 0

/-- Restatement of the spec sentence for `region_to_bin` (refinement side):
step through the shifts `k = 14, 17, 20, 23, 26` paired with level indices
`1..5`, returning `((1 << (3*(6-i))) - 1) / 7 + (start >> k)` at the first
level where `start >> k == (end-1) >> k`, else `0`. -/
def specRegionToBinLoop (start e1 : Int) : List (Nat × Nat) → Int
  | [] => 0
  | (i, k) :: rest =>
    if start / 2 ^ k = e1 / 2 ^ k then ((2 : Int) ^ (3 * (6 - i)) - 1) / 7 + start / 2 ^ k
    else specRegionToBinLoop start e1 rest

/-- The spec's description of `region_to_bin` as a whole. -/
def specRegionToBin (start e : Int) : Int :=
  specRegionToBinLoop start (e - 1) [(1, 14), (2, 17), (3, 20), (4, 23), (5, 26)]

/-! Depth bookkeeping for bins at BAI parameters (min_shift 14, depth 5).
Level `l` bins occupy ids `levelBase l ..< levelBase (l+1)` and have width
`2 ^ (29 - 3*l)`. -/

/-- First bin id of level `l`: `levelBase 0 = 0`, `levelBase (l+1) = levelBase l + 8^l`. -/
def levelBase : Nat → Int
  | 0 => 0
  | l + 1 => levelBase l + 2 ^ (3 * l)

/-- The level (depth) of a bin id at BAI parameters. -/
def binLevel (b : Int) : Nat :=
  if 4681 ≤ b then 5
  else if 585 ≤ b then 4
  else if 73 ≤ b then 3
  else if 9 ≤ b then 2
  else if 1 ≤ b then 1
  else 0

/-- The shift of the level of bin `b` at BAI parameters. -/
def binShift (b : Int) : Nat := 29 - 3 * binLevel b

/-- Bin `b` (at its own level) contains the whole 0-based half-open interval
`[start, e)`. -/
def binContains (b start e : Int) : Prop :=
  start / 2 ^ binShift b = b - levelBase (binLevel b) ∧
    (e - 1) / 2 ^ binShift b = b - levelBase (binLevel b)

instance (b start e : Int) : Decidable (binContains b start e) := by
  unfold binContains; infer_instance

/-! ## noodles-bam: auxiliary i32 writer (`write_data_i32_value`)

Type-byte characters (pinned by the unit tests in the same source file):
`C` = 67, `S` = 83, `I` = 73, `c` = 99, `s` = 115, `i` = 105.  Every payload
byte is the two's-complement bit pattern, so each cast is `emod` by the
width. -/

/-- `write_data_i32_value`: type byte then little-endian payload, choosing the
width by the source's if-chain. -/
def write_data_i32_value (n : Int) : List Nat :=
  if 0 ≤ n then
    if n ≤ 255 then [67, (n % 256).toNat]
    else if n ≤ 65535 then 83 :: u16LE (n % 65536).toNat
    else 73 :: u32LE (n % 4294967296).toNat
  else if -128 ≤ n then [99, (n % 256).toNat]
  else if -32768 ≤ n then 115 :: u16LE (n % 65536).toNat
  else 105 :: u32LE (n % 4294967296).toNat

/-- Restatement of the claim's narrowing rule (refinement side): tightest
width by value range, two's-complement little-endian payload. -/
def specI32Encoding (n : Int) : List Nat :=
  if 0 ≤ n ∧ n ≤ 255 then [67, n.toNat]
  else if 256 ≤ n ∧ n ≤ 65535 then 83 :: u16LE n.toNat
  else if 65536 ≤ n then 73 :: u32LE n.toNat
  else if -128 ≤ n ∧ n ≤ -1 then [99, (n + 256).toNat]
  else if -32768 ≤ n ∧ n ≤ -129 then 115 :: u16LE (n + 65536).toNat
  else 105 :: u32LE (n + 4294967296).toNat

/-! ## noodles-bcf: string-map index writer (`src/noodles-bcf/src/writer/string_map.rs`) -/

/-- Modelled from the spec: `write_value` (not under src/) writes a typed
scalar as one header byte — high nibble the count (here 1), low nibble the
type code (1: i8, 2: i16, 3: i32) — followed by the little-endian
two's-complement payload.  `write_string_map_index` picks the width by
`i8/i16/i32::try_from` on the usize index, and fails with `InvalidInput` when
all three fail. -/
def write_string_map_index (i : Nat) : Except String (List Nat) :=
  if i ≤ 127 then .ok [17, i]
  else if i ≤ 32767 then .ok (18 :: u16LE i)
  else if i ≤ 2147483647 then .ok (19 :: u32LE i)
  else .error ("invalid index")

/-- Restatement of the claim's rule (refinement side): smallest signed width
holding the non-negative index. -/
def specStringMapIndexBytes (i : Nat) : List Nat :=
  if i ≤ 127 then [17, i]
  else if i ≤ 32767 then 18 :: u16LE i
  else 19 :: u32LE i

/-! ## noodles-bcf: `Int32` sentinel values (`src/noodles-bcf/src/record/value/int32.rs`) -/

/-- The BCF `Int32` sum type. -/
inductive BcfInt32 where
  | value (n : Int)
  | missing
  | endOfVector
  | reserved (n : Int)
deriving DecidableEq, Repr

/-- `From<i32> for Int32`: match on `value as u32`. -/
def bcfInt32OfI32 (n : Int) : BcfInt32 :=
  if n % 4294967296 = 0x80000000 then .missing
  else if n % 4294967296 = 0x80000001 then .endOfVector
  else if 0x80000002 ≤ n % 4294967296 ∧ n % 4294967296 ≤ 0x80000007 then .reserved n
  else .value n

/-- `From<Int32> for i32`. -/
def i32OfBcfInt32 : BcfInt32 → Int
  | .missing => -2147483648
  | .endOfVector => -2147483647
  | .value n => n
  | .reserved n => n

/-! ## noodles-sam record model and the BAM record writer
(`src/noodles-bam/src/writer/record.rs`)

The SAM record types themselves (`ReadName`, `Sequence`, `QualityScores`,
`Data`, `Position`) are collaborators not under src/; they are embedded as
the plain data the writer reads from them: byte lists, base codes, scores,
and typed auxiliary fields.  CIGAR op kinds use the BAM discriminants
`M=0, I=1, D=2, N=3, S=4, H=5, P=6, ==7, X=8`; sequence bases use the 4-bit
codes of `=ACMGRSVTWYHKDBN`; auxiliary type and subtype bytes are the ASCII
codes of `A c C s S i I f Z H B`. -/

/-- A CIGAR operation: BAM kind discriminant and a u32 length. -/
structure CigarOp where
  kind : Nat
  len : Nat
deriving DecidableEq, Repr

/-- A SAM auxiliary-field value, as far as the BAM writer consumes it.  A
float is represented by its IEEE-754 bit pattern. -/
inductive AuxValue where
  | char (c : Nat)
  | int32 (n : Int)
  | float (bits : Nat)
  | string (s : List Nat)
  | hex (s : List Nat)
  | int8Array (vs : List Int)
  | uint8Array (vs : List Nat)
  | int16Array (vs : List Int)
  | uint16Array (vs : List Nat)
  | int32Array (vs : List Int)
  | uint32Array (vs : List Nat)
  | floatArray (vs : List Nat)
deriving DecidableEq, Repr

/-- An auxiliary data field: two tag bytes and a value. -/
structure AuxField where
  tag1 : Nat
  tag2 : Nat
  val : AuxValue
deriving DecidableEq, Repr

/-- `calculate_data_len`: 2 tag bytes, 1 type byte, for arrays 1 subtype byte
and a 4-byte count, plus the payload size chosen exactly as in the source. -/
def calculate_data_len : List AuxField → Nat
  | [] => 0
  | f :: rest =>
    3 +
      (match f.val with
        | .char _ => 1
        | .int32 n =>
          if 0 ≤ n then
            if n ≤ 255 then 1 else if n ≤ 65535 then 2 else 4
          else if -128 ≤ n then 1
          else if -32768 ≤ n then 2
          else 4
        | .float _ => 4
        | .string s => s.length + 1
        | .hex s => s.length + 1
        | .int8Array vs => 5 + vs.length
        | .uint8Array vs => 5 + vs.length
        | .int16Array vs => 5 + 2 * vs.length
        | .uint16Array vs => 5 + 2 * vs.length
        | .int32Array vs => 5 + 4 * vs.length
        | .uint32Array vs => 5 + 4 * vs.length
        | .floatArray vs => 5 + 4 * vs.length) +
      calculate_data_len rest

/-- The bytes `write_data` emits for one field: tag, type byte (i32 values go
through `write_data_i32_value` instead), optional subtype byte and u32 count,
then the payload.  `CString::new` fails on interior NUL bytes in `Z`/`H`
strings. -/
def writeAuxField (f : AuxField) : Except String (List Nat) :=
  let tag := [f.tag1 % 256, f.tag2 % 256]
  match f.val with
  | .int32 n => .ok (tag ++ write_data_i32_value n)
  | .char c => .ok (tag ++ [65, c % 256])
  | .float bits => .ok (tag ++ [102] ++ u32LE (bits % 4294967296))
  | .string s =>
    if s.contains 0 then .error ("data contains interior nul") else .ok (tag ++ [90] ++ s ++ [0])
  | .hex s =>
    if s.contains 0 then .error ("data contains interior nul") else .ok (tag ++ [72] ++ s ++ [0])
  | .int8Array vs =>
    .ok (tag ++ [66, 99] ++ u32LE (vs.length % 4294967296) ++ vs.map fun n => (n % 256).toNat)
  | .uint8Array vs =>
    .ok (tag ++ [66, 67] ++ u32LE (vs.length % 4294967296) ++ vs.map (· % 256))
  | .int16Array vs =>
    .ok (tag ++ [66, 115] ++ u32LE (vs.length % 4294967296) ++
      vs.flatMap fun n => u16LE (n % 65536).toNat)
  | .uint16Array vs =>
    .ok (tag ++ [66, 83] ++ u32LE (vs.length % 4294967296) ++ vs.flatMap fun n => u16LE (n % 65536))
  | .int32Array vs =>
    .ok (tag ++ [66, 105] ++ u32LE (vs.length % 4294967296) ++
      vs.flatMap fun n => u32LE (n % 4294967296).toNat)
  | .uint32Array vs =>
    .ok (tag ++ [66, 73] ++ u32LE (vs.length % 4294967296) ++
      vs.flatMap fun n => u32LE (n % 4294967296))
  | .floatArray vs =>
    .ok (tag ++ [66, 102] ++ u32LE (vs.length % 4294967296) ++
      vs.flatMap fun n => u32LE (n % 4294967296))

/-- `write_data`: all auxiliary fields in order. -/
def write_data : List AuxField → Except String (List Nat)
  | [] => .ok []
  | f :: rest =>
    match writeAuxField f with
    | .error e => .error e
    | .ok b =>
      match write_data rest with
      | .error e => .error e
      | .ok bs => .ok (b ++ bs)

/-- `write_seq`: pack base codes two per byte, high nibble first; an odd tail
is padded with `=` (code 0). -/
def write_seq : List Nat → List Nat
  | [] => []
  | [b] => [b % 16 * 16]
  | b1 :: b2 :: rest => (b1 % 16 * 16 + b2 % 16) :: write_seq rest

/-- `write_cigar`: each op becomes the u32 `len << 4 | kind`, little-endian. -/
def write_cigar (ops : List CigarOp) : List Nat :=
  ops.flatMap fun op => u32LE (op.len * 16 % 4294967296 + op.kind % 16)

/-- The quality section of `write_sam_record`: compare sequence length with
quality length; shorter sequence is an error, a longer sequence is filled
with `0xFF` only when the quality scores are empty, equal lengths write the
scores. -/
def qualSection (seqLen : Nat) (qs : List Nat) : Except String (List Nat) :=
  if seqLen < qs.length then .error ("quality scores length does not match sequence length")
  else if qs.length < seqLen then
    if qs = [] then .ok (List.replicate seqLen 255)
    else .error ("quality scores length does not match sequence length")
  else .ok (qs.map (· % 256))

/-- A SAM record, as far as `write_sam_record` consumes it.  Positions are
1-based; the read name is the raw bytes without the trailing NUL. -/
structure SamRecord where
  readName : Option (List Nat)
  referenceSequenceName : Option String
  mateReferenceSequenceName : Option String
  position : Option Int
  matePosition : Option Int
  mappingQuality : Nat
  flags : Nat
  cigar : List CigarOp
  sequence : List Nat
  qualityScores : List Nat
  templateLength : Int
  data : List AuxField
deriving DecidableEq, Repr

/-- The raw read-name bytes: the literal `"*"` when absent. -/
def nameBytesOf (r : SamRecord) : List Nat :=
  match r.readName with
  | none => [42]
  | some n => n

/-- Position of a name in the reference-sequence dictionary
(`ReferenceSequences::get_index_of`). -/
def indexOfName : List String → String → Option Nat
  | [], _ => none
  | s :: rest, n => if s = n then some 0 else (indexOfName rest n).map (· + 1)

/-- Resolve an optional reference-sequence name to an id: `-1` when absent,
the dictionary index (`as i32`) when present, `InvalidInput` when unknown. -/
def resolveRef (refSeqs : List String) : Option String → Except String Int
  | none => .ok (-1)
  | some name =>
    match indexOfName refSeqs name with
    | some i => .ok (i32ofNat i)
    | none => .error ("invalid reference sequence id")

/-- `Cigar::reference_len`: the u32 sum of the lengths of ops that consume
the reference (`M`, `D`, `N`, `=`, `X`). -/
def reference_len (cigar : List CigarOp) : Nat :=
  ((cigar.filter fun op =>
      op.kind = 0 ∨ op.kind = 2 ∨ op.kind = 3 ∨ op.kind = 7 ∨ op.kind = 8).map
    (·.len)).sum % 4294967296

/-- The `bin` field of `write_sam_record`: `4680` without a position, else
`region_to_bin(pos-1, pos-1+reference_len) as u16`. -/
def samRecordBin (r : SamRecord) : Nat :=
  match r.position with
  | none => 4680
  | some p =>
    let start := p - 1
    ((region_to_bin start (start + (reference_len r.cigar : Int))) % 65536).toNat

/-- The `pos` field: 1-based position minus one, `-1` when absent. -/
def samPos (r : SamRecord) : Int := (r.position.map fun v => v - 1).getD (-1)

/-- The `next_pos` field: 1-based mate position minus one, `-1` when absent. -/
def samMatePos (r : SamRecord) : Int := (r.matePosition.map fun v => v - 1).getD (-1)

/-- The `block_size` field as `write_sam_record` computes it in i32 arithmetic:
`32 + l_read_name + 4*n_cigar_op + (l_seq+1)/2 + l_seq + data_len`, with
`l_read_name` the u8 cast of the NUL-terminated name length, `n_cigar_op` the
u16 cast of the op count, `l_seq` and `data_len` i32 casts of usize lengths,
and Rust's truncating i32 division. -/
def samBlockSize (r : SamRecord) : Int :=
  wrap32 (32 + (((nameBytesOf r).length + 1) % 256 : Nat) + 4 * ((r.cigar.length % 65536 : Nat)) +
    Int.tdiv (i32ofNat r.sequence.length + 1) 2 + i32ofNat r.sequence.length +
    i32ofNat (calculate_data_len r.data))

/-- `write_sam_record`: the whole record as bytes, or the first error in
source order (read name NUL check, reference resolution, quality-length
check, auxiliary data). -/
def write_sam_record (refSeqs : List String) (r : SamRecord) : Except String (List Nat) :=
  if (nameBytesOf r).contains 0 then .error ("invalid read name")
  else
    match resolveRef refSeqs r.referenceSequenceName with
    | .error e => .error e
    | .ok refId =>
      match resolveRef refSeqs r.mateReferenceSequenceName with
      | .error e => .error e
      | .ok mateRefId =>
        match qualSection r.sequence.length r.qualityScores with
        | .error e => .error e
        | .ok qual =>
          match write_data r.data with
          | .error e => .error e
          | .ok dataBytes =>
            .ok (i32LE (samBlockSize r) ++ i32LE refId ++ i32LE (samPos r) ++
              [((nameBytesOf r).length + 1) % 256, r.mappingQuality % 256] ++
              u16LE (samRecordBin r) ++ u16LE (r.cigar.length % 65536) ++
              u16LE (r.flags % 65536) ++ i32LE (i32ofNat r.sequence.length) ++
              i32LE mateRefId ++ i32LE (samMatePos r) ++ i32LE r.templateLength ++
              (nameBytesOf r ++ [0]) ++ write_cigar r.cigar ++ write_seq r.sequence ++
              qual ++ dataBytes)

/-- A concrete record without a position, used to instantiate theorems. -/
def sampleUnmappedRecord : SamRecord :=
  { readName := some [65], referenceSequenceName := none, mateReferenceSequenceName := none,
    position := none, matePosition := none, mappingQuality := 0, flags := 4,
    cigar := [], sequence := [1, 2], qualityScores := [], templateLength := 0, data := [] }

/-- A concrete record with equal-length sequence and quality scores. -/
def sampleMappedRecord : SamRecord :=
  { readName := some [65], referenceSequenceName := none, mateReferenceSequenceName := none,
    position := none, matePosition := none, mappingQuality := 0, flags := 4,
    cigar := [⟨0, 2⟩], sequence := [1, 2], qualityScores := [40, 41], templateLength := 0,
    data := [⟨78, 77, .int32 5⟩] }

/-- A concrete record with a quality/sequence length mismatch. -/
def sampleMismatchedRecord : SamRecord :=
  { readName := some [65], referenceSequenceName := none, mateReferenceSequenceName := none,
    position := none, matePosition := none, mappingQuality := 0, flags := 4,
    cigar := [], sequence := [1, 2], qualityScores := [40], templateLength := 0, data := [] }

/-! ## Lemmas about the merge sweep -/

theorem mergeSweep_head_start :
    ∀ (cs : List Chunk) (cur : Chunk),
      ∃ hd tl, mergeSweep cur cs = hd :: tl ∧ hd.start = cur.start := by
  intro cs
  induction cs with
  | nil => exact fun cur => ⟨cur, [], rfl, rfl⟩
  | cons next rest ih =>
    intro cur
    unfold mergeSweep
    split_ifs with h1 h2
    · exact ⟨cur, mergeSweep next rest, rfl, rfl⟩
    · obtain ⟨hd, tl, heq, hs⟩ := ih ⟨cur.start, next.end_⟩
      exact ⟨hd, tl, heq, hs⟩
    · exact ih cur

theorem mergeSweep_start_le :
    ∀ (cs : List Chunk) (cur : Chunk), cur.start ≤ cur.end_ →
      (∀ c ∈ cs, c.start ≤ c.end_) →
      ∀ o ∈ mergeSweep cur cs, cur.start ≤ o.start := by
  intro cs
  induction cs with
  | nil =>
    intro cur _ _ o ho
    simp only [mergeSweep, List.mem_singleton] at ho
    subst ho
    exact le_refl _
  | cons next rest ih =>
    intro cur hcur hcs o ho
    have hnext : next.start ≤ next.end_ := hcs next (by simp)
    have hrest : ∀ c ∈ rest, c.start ≤ c.end_ := fun c hc => hcs c (by simp [hc])
    unfold mergeSweep at ho
    split_ifs at ho with h1 h2
    · rcases List.mem_cons.mp ho with heq | ho
      · subst heq; exact le_refl _
      · have := ih next hnext hrest o ho
        omega
    · have := ih ⟨cur.start, next.end_⟩ (by simp; omega) hrest o ho
      exact this
    · exact ih cur hcur hrest o ho

theorem mergeSweep_wf :
    ∀ (cs : List Chunk) (cur : Chunk), cur.start ≤ cur.end_ →
      (∀ c ∈ cs, c.start ≤ c.end_) →
      ∀ o ∈ mergeSweep cur cs, o.start ≤ o.end_ := by
  intro cs
  induction cs with
  | nil =>
    intro cur hcur _ o ho
    simp only [mergeSweep, List.mem_singleton] at ho
    subst ho; exact hcur
  | cons next rest ih =>
    intro cur hcur hcs o ho
    have hnext : next.start ≤ next.end_ := hcs next (by simp)
    have hrest : ∀ c ∈ rest, c.start ≤ c.end_ := fun c hc => hcs c (by simp [hc])
    unfold mergeSweep at ho
    split_ifs at ho with h1 h2
    · rcases List.mem_cons.mp ho with rfl | ho
      · exact hcur
      · exact ih next hnext hrest o ho
    · exact ih ⟨cur.start, next.end_⟩ (by simp; omega) hrest o ho
    · exact ih cur hcur hrest o ho

theorem mergeSweep_pairwise :
    ∀ (cs : List Chunk) (cur : Chunk), cur.start ≤ cur.end_ →
      (∀ c ∈ cs, c.start ≤ c.end_) →
      List.Pairwise (fun a b => a.end_ < b.start) (mergeSweep cur cs) := by
  intro cs
  induction cs with
  | nil => intro cur _ _; simp [mergeSweep]
  | cons next rest ih =>
    intro cur hcur hcs
    have hnext : next.start ≤ next.end_ := hcs next (by simp)
    have hrest : ∀ c ∈ rest, c.start ≤ c.end_ := fun c hc => hcs c (by simp [hc])
    unfold mergeSweep
    split_ifs with h1 h2
    · refine List.Pairwise.cons ?_ (ih next hnext hrest)
      intro o ho
      have := mergeSweep_start_le rest next hnext hrest o ho
      omega
    · exact ih ⟨cur.start, next.end_⟩ (by simp; omega) hrest
    · exact ih cur hcur hrest

theorem mergeSweep_covers :
    ∀ (cs : List Chunk) (cur : Chunk), (∀ c ∈ cs, cur.start ≤ c.start) →
      List.Pairwise (fun a b => a.start ≤ b.start) cs →
      ∀ c ∈ cur :: cs, ∀ x, c.start ≤ x → x < c.end_ →
        ∃ o ∈ mergeSweep cur cs, o.start ≤ x ∧ x < o.end_ := by
  intro cs
  induction cs with
  | nil =>
    intro cur _ _ c hc x hx1 hx2
    simp only [List.mem_singleton] at hc
    refine ⟨cur, by simp [mergeSweep], ?_, ?_⟩
    · exact hc ▸ hx1
    · exact hc ▸ hx2
  | cons next rest ih =>
    intro cur hstart hsorted c hc x hx1 hx2
    have hcn : cur.start ≤ next.start := hstart next (by simp)
    have hnr : ∀ c ∈ rest, next.start ≤ c.start := fun c hc =>
      (List.pairwise_cons.mp hsorted).1 c hc
    have hsr : List.Pairwise (fun a b => a.start ≤ b.start) rest :=
      (List.pairwise_cons.mp hsorted).2
    unfold mergeSweep
    split_ifs with h1 h2
    · rcases List.mem_cons.mp hc with heq | hc
      · refine ⟨cur, by simp, ?_, ?_⟩
        · exact heq ▸ hx1
        · exact heq ▸ hx2
      · obtain ⟨o, ho, hox⟩ := ih next hnr hsr c hc x hx1 hx2
        exact ⟨o, by simp [ho], hox⟩
    · -- extend: current becomes ⟨cur.start, next.end_⟩
      have hr : ∀ c ∈ rest, (Chunk.mk cur.start next.end_).start ≤ c.start := by
        intro c hc
        have := hnr c hc
        simp only []
        omega
      rcases List.mem_cons.mp hc with heq | hc
      · have hx1' : cur.start ≤ x := heq ▸ hx1
        have hx2' : x < cur.end_ := heq ▸ hx2
        exact ih ⟨cur.start, next.end_⟩ hr hsr ⟨cur.start, next.end_⟩ (by simp) x hx1'
          (show x < next.end_ by omega)
      · rcases List.mem_cons.mp hc with heq | hc
        · have hx1' : next.start ≤ x := heq ▸ hx1
          have hx2' : x < next.end_ := heq ▸ hx2
          exact ih ⟨cur.start, next.end_⟩ hr hsr ⟨cur.start, next.end_⟩ (by simp) x
            (by simp only []; omega) (by simp only []; omega)
        · exact ih ⟨cur.start, next.end_⟩ hr hsr c (by simp [hc]) x hx1 hx2
    · -- absorb: next is contained in cur
      rcases List.mem_cons.mp hc with heq | hc
      · have hx1' : cur.start ≤ x := heq ▸ hx1
        have hx2' : x < cur.end_ := heq ▸ hx2
        exact ih cur (fun c hc => le_trans hcn (hnr c hc)) hsr cur (by simp) x hx1' hx2'
      · rcases List.mem_cons.mp hc with heq | hc
        · have hx1' : next.start ≤ x := heq ▸ hx1
          have hx2' : x < next.end_ := heq ▸ hx2
          exact ih cur (fun c hc => le_trans hcn (hnr c hc)) hsr cur (by simp) x
            (by omega) (by omega)
        · exact ih cur (fun c hc => le_trans hcn (hnr c hc)) hsr c (by simp [hc]) x hx1 hx2

theorem mergeSweep_subset :
    ∀ (cs : List Chunk) (cur : Chunk), ∀ o ∈ mergeSweep cur cs, ∀ x, o.start ≤ x → x < o.end_ →
      ∃ c ∈ cur :: cs, c.start ≤ x ∧ x < c.end_ := by
  intro cs
  induction cs with
  | nil =>
    intro cur o ho x hx1 hx2
    simp only [mergeSweep, List.mem_singleton] at ho
    refine ⟨cur, by simp, ?_, ?_⟩
    · exact ho ▸ hx1
    · exact ho ▸ hx2
  | cons next rest ih =>
    intro cur o ho x hx1 hx2
    unfold mergeSweep at ho
    split_ifs at ho with h1 h2
    · rcases List.mem_cons.mp ho with heq | ho
      · refine ⟨cur, by simp, ?_, ?_⟩
        · exact heq ▸ hx1
        · exact heq ▸ hx2
      · obtain ⟨c, hc, hcx⟩ := ih next o ho x hx1 hx2
        rcases List.mem_cons.mp hc with heq | hc
        · exact ⟨c, by simp [heq], hcx⟩
        · exact ⟨c, by simp [hc], hcx⟩
    · obtain ⟨c, hc, hcx⟩ := ih ⟨cur.start, next.end_⟩ o ho x hx1 hx2
      rcases List.mem_cons.mp hc with heq | hc
      · -- x lies in the extended chunk: split on the old end
        have hcx2 := hcx
        rw [heq] at hcx2
        by_cases hx : x < cur.end_
        · exact ⟨cur, by simp, hcx2.1, hx⟩
        · have hx2' : x < next.end_ := hcx2.2
          refine ⟨next, by simp, by omega, hx2'⟩
      · exact ⟨c, by simp [hc], hcx⟩
    · obtain ⟨c, hc, hcx⟩ := ih cur o ho x hx1 hx2
      rcases List.mem_cons.mp hc with heq | hc
      · exact ⟨c, by simp [heq], hcx⟩
      · exact ⟨c, by simp [hc], hcx⟩

theorem mergeSweep_ends :
    ∀ (cs : List Chunk) (cur : Chunk) (m : Nat), m < cur.end_ → (∀ c ∈ cs, m < c.end_) →
      ∀ o ∈ mergeSweep cur cs, m < o.end_ := by
  intro cs
  induction cs with
  | nil =>
    intro cur m hm _ o ho
    simp only [mergeSweep, List.mem_singleton] at ho
    subst ho; exact hm
  | cons next rest ih =>
    intro cur m hm hcs o ho
    have hnext : m < next.end_ := hcs next (by simp)
    have hrest : ∀ c ∈ rest, m < c.end_ := fun c hc => hcs c (by simp [hc])
    unfold mergeSweep at ho
    split_ifs at ho with h1 h2
    · rcases List.mem_cons.mp ho with rfl | ho
      · exact hm
      · exact ih next m hnext hrest o ho
    · exact ih ⟨cur.start, next.end_⟩ m (by simp; omega) hrest o ho
    · exact ih cur m hm hrest o ho

/-! ## Facts about the sorted, filtered chunk list -/

theorem optimize_chunks_sorted_pairwise (kept : List Chunk) :
    List.Pairwise (fun a b : Chunk => a.start ≤ b.start)
      (kept.mergeSort fun a b => a.start ≤ b.start) := by
  have hs := @List.sorted_mergeSort Chunk (fun a b : Chunk => decide (a.start ≤ b.start))
    (by intro a b c h1 h2; simp only [decide_eq_true_eq] at *; omega)
    (by intro a b; simp only [Bool.or_eq_true, decide_eq_true_eq]; omega) kept
  exact hs.imp (by intro a b h; simpa using h)

theorem optimize_chunks_props (chunks : List Chunk) (minOffset : Nat)
    (hwf : ∀ c ∈ chunks, c.start ≤ c.end_) :
    List.Pairwise (fun a b => a.end_ < b.start) (optimize_chunks chunks minOffset) ∧
    List.Pairwise (fun a b => a.start ≤ b.start) (optimize_chunks chunks minOffset) ∧
    (∀ c ∈ chunks, minOffset < c.end_ → ∀ x, c.start ≤ x → x < c.end_ →
      ∃ o ∈ optimize_chunks chunks minOffset, o.start ≤ x ∧ x < o.end_) := by
  have hwfk : ∀ c ∈ chunks.filter fun c => minOffset < c.end_, c.start ≤ c.end_ := by
    intro c hc
    exact hwf c (List.mem_filter.mp hc).1
  have hsorted := optimize_chunks_sorted_pairwise (chunks.filter fun c => minOffset < c.end_)
  cases hsl : (chunks.filter fun c => minOffset < c.end_).mergeSort
      (fun a b => a.start ≤ b.start) with
  | nil =>
    have hempty : optimize_chunks chunks minOffset = [] := by
      unfold optimize_chunks
      rw [hsl]
    refine ⟨by rw [hempty]; exact List.Pairwise.nil,
      by rw [hempty]; exact List.Pairwise.nil, ?_⟩
    intro c hc hm x _ _
    exfalso
    have hmem : c ∈ (chunks.filter fun c => minOffset < c.end_).mergeSort
        (fun a b => a.start ≤ b.start) := by
      rw [List.mem_mergeSort, List.mem_filter]
      exact ⟨hc, by simpa⟩
    rw [hsl] at hmem
    simp at hmem
  | cons c0 rest =>
    have hout : optimize_chunks chunks minOffset = mergeSweep c0 rest := by
      unfold optimize_chunks
      rw [hsl]
    rw [hsl] at hsorted
    have hwfs : ∀ c ∈ c0 :: rest, c.start ≤ c.end_ := by
      intro c hc
      have hmem : c ∈ (chunks.filter fun c => minOffset < c.end_).mergeSort
          (fun a b => a.start ≤ b.start) := by
        rw [hsl]
        exact hc
      exact hwfk c (List.mem_mergeSort.mp hmem)
    have h0 : c0.start ≤ c0.end_ := hwfs c0 (by simp)
    have hrest : ∀ c ∈ rest, c.start ≤ c.end_ := fun c hc => hwfs c (by simp [hc])
    refine ⟨?_, ?_, ?_⟩
    · rw [hout]
      exact mergeSweep_pairwise rest c0 h0 hrest
    · rw [hout]
      have hp := mergeSweep_pairwise rest c0 h0 hrest
      have hwfo := mergeSweep_wf rest c0 h0 hrest
      refine hp.imp_of_mem ?_
      intro a b ha hb hab
      have := hwfo a ha
      omega
    · intro c hc hm x hx1 hx2
      have hcs : c ∈ c0 :: rest := by
        have hmem : c ∈ (chunks.filter fun c => minOffset < c.end_).mergeSort
            (fun a b => a.start ≤ b.start) := by
          rw [List.mem_mergeSort, List.mem_filter]
          exact ⟨hc, by simpa⟩
        rwa [hsl] at hmem
      rw [hout]
      exact mergeSweep_covers rest c0 (List.pairwise_cons.mp hsorted).1
        (List.pairwise_cons.mp hsorted).2 c hcs x hx1 hx2

theorem optimize_chunks_example_zero :
    optimize_chunks [⟨2, 3⟩, ⟨5, 8⟩, ⟨7, 13⟩, ⟨21, 34⟩] 0 = [⟨2, 3⟩, ⟨5, 13⟩, ⟨21, 34⟩] := by
  have h : (([⟨2, 3⟩, ⟨5, 8⟩, ⟨7, 13⟩, ⟨21, 34⟩] : List Chunk).filter
      fun c => 0 < c.end_).mergeSort (fun a b => a.start ≤ b.start) =
      ([⟨2, 3⟩, ⟨5, 8⟩, ⟨7, 13⟩, ⟨21, 34⟩] : List Chunk) := by
    rw [show (([⟨2, 3⟩, ⟨5, 8⟩, ⟨7, 13⟩, ⟨21, 34⟩] : List Chunk).filter
      fun c => 0 < c.end_) = [⟨2, 3⟩, ⟨5, 8⟩, ⟨7, 13⟩, ⟨21, 34⟩] from by decide]
    exact List.mergeSort_of_sorted (by decide)
  unfold optimize_chunks
  rw [h]
  rfl

theorem optimize_chunks_example_five :
    optimize_chunks [⟨2, 3⟩, ⟨5, 8⟩, ⟨7, 13⟩, ⟨21, 34⟩] 5 = [⟨5, 13⟩, ⟨21, 34⟩] := by
  have h : (([⟨2, 3⟩, ⟨5, 8⟩, ⟨7, 13⟩, ⟨21, 34⟩] : List Chunk).filter
      fun c => 5 < c.end_).mergeSort (fun a b => a.start ≤ b.start) =
      ([⟨5, 8⟩, ⟨7, 13⟩, ⟨21, 34⟩] : List Chunk) := by
    rw [show (([⟨2, 3⟩, ⟨5, 8⟩, ⟨7, 13⟩, ⟨21, 34⟩] : List Chunk).filter
      fun c => 5 < c.end_) = [⟨5, 8⟩, ⟨7, 13⟩, ⟨21, 34⟩] from by decide]
    exact List.mergeSort_of_sorted (by decide)
  unfold optimize_chunks
  rw [h]
  rfl

theorem optimize_chunks_nil (minOffset : Nat) : optimize_chunks [] minOffset = [] := by
  unfold optimize_chunks
  rw [List.filter_nil, List.mergeSort_nil]

/-- C1: `optimize_chunks` drops exactly the chunks whose end is ≤ `min_offset`,
sorts the remainder by start and merges with the sweep rule; the output is
pairwise non-overlapping (each end strictly before the next start), sorted by
start, and its union covers every retained input chunk; the empty input gives
the empty output; and the two documented example inputs give the documented
outputs. -/
theorem optimize_chunks_correct (chunks : List Chunk) (minOffset : Nat)
    (hwf : ∀ c ∈ chunks, c.start ≤ c.end_) :
    List.Pairwise (fun a b => a.end_ < b.start) (optimize_chunks chunks minOffset) ∧
    List.Pairwise (fun a b => a.start ≤ b.start) (optimize_chunks chunks minOffset) ∧
    (∀ c ∈ chunks, minOffset < c.end_ → ∀ x, c.start ≤ x → x < c.end_ →
      ∃ o ∈ optimize_chunks chunks minOffset, o.start ≤ x ∧ x < o.end_) ∧
    optimize_chunks [] minOffset = [] ∧
    optimize_chunks [⟨2, 3⟩, ⟨5, 8⟩, ⟨7, 13⟩, ⟨21, 34⟩] 0 = [⟨2, 3⟩, ⟨5, 13⟩, ⟨21, 34⟩] ∧
    optimize_chunks [⟨2, 3⟩, ⟨5, 8⟩, ⟨7, 13⟩, ⟨21, 34⟩] 5 = [⟨5, 13⟩, ⟨21, 34⟩] := by
  obtain ⟨h1, h2, h3⟩ := optimize_chunks_props chunks minOffset hwf
  exact ⟨h1, h2, h3, optimize_chunks_nil minOffset, optimize_chunks_example_zero,
    optimize_chunks_example_five⟩

/-- Witness for C1 at the documented example input. -/
theorem optimize_chunks_correct_witness :
    List.Pairwise (fun a b => a.end_ < b.start)
      (optimize_chunks [⟨2, 3⟩, ⟨5, 8⟩, ⟨7, 13⟩, ⟨21, 34⟩] 0) ∧
    List.Pairwise (fun a b => a.start ≤ b.start)
      (optimize_chunks [⟨2, 3⟩, ⟨5, 8⟩, ⟨7, 13⟩, ⟨21, 34⟩] 0) ∧
    (∀ c ∈ ([⟨2, 3⟩, ⟨5, 8⟩, ⟨7, 13⟩, ⟨21, 34⟩] : List Chunk), 0 < c.end_ →
      ∀ x, c.start ≤ x → x < c.end_ →
      ∃ o ∈ optimize_chunks [⟨2, 3⟩, ⟨5, 8⟩, ⟨7, 13⟩, ⟨21, 34⟩] 0, o.start ≤ x ∧ x < o.end_) ∧
    optimize_chunks [] 0 = [] ∧
    optimize_chunks [⟨2, 3⟩, ⟨5, 8⟩, ⟨7, 13⟩, ⟨21, 34⟩] 0 = [⟨2, 3⟩, ⟨5, 13⟩, ⟨21, 34⟩] ∧
    optimize_chunks [⟨2, 3⟩, ⟨5, 8⟩, ⟨7, 13⟩, ⟨21, 34⟩] 5 = [⟨5, 13⟩, ⟨21, 34⟩] :=
  optimize_chunks_correct [⟨2, 3⟩, ⟨5, 8⟩, ⟨7, 13⟩, ⟨21, 34⟩] 0 (by decide)

/-- C2 counterexample: with input chunk `(0, 10)` and `min_offset = 5` the
output still contains the point 0, which is outside `[min_offset, ∞)`, so the
output union is not a subset of the input union intersected with
`[min_offset, ∞)`. -/
theorem optimize_chunks_union_counterexample :
    (∃ o ∈ optimize_chunks [⟨0, 10⟩] 5, o.start ≤ 0 ∧ 0 < o.end_) ∧ ¬ (5 : Nat) ≤ 0 := by
  have h : optimize_chunks [⟨0, 10⟩] 5 = [⟨0, 10⟩] := by
    unfold optimize_chunks
    rw [show (([⟨0, 10⟩] : List Chunk).filter fun c => 5 < c.end_) = [⟨0, 10⟩] from by decide,
      List.mergeSort_singleton]
    rfl
  rw [h]
  exact ⟨⟨⟨0, 10⟩, by simp, by simp, by simp⟩, by omega⟩

/-- C2 (amended): the union of the output of `optimize_chunks` is a subset of
the union of the input chunks' intervals, and every output chunk ends
strictly after `min_offset` (the `min_offset` filter applies to chunk ends,
not pointwise to the union). -/
theorem optimize_chunks_union_subset (chunks : List Chunk) (minOffset : Nat)
    (_hwf : ∀ c ∈ chunks, c.start ≤ c.end_) :
    (∀ x : Nat, (∃ o ∈ optimize_chunks chunks minOffset, o.start ≤ x ∧ x < o.end_) →
      ∃ c ∈ chunks, c.start ≤ x ∧ x < c.end_) ∧
    (∀ o ∈ optimize_chunks chunks minOffset, minOffset < o.end_) := by
  cases hsl : (chunks.filter fun c => minOffset < c.end_).mergeSort
      (fun a b => a.start ≤ b.start) with
  | nil =>
    have hempty : optimize_chunks chunks minOffset = [] := by
      unfold optimize_chunks
      rw [hsl]
    rw [hempty]
    constructor
    · intro x hx
      obtain ⟨o, ho, _⟩ := hx
      simp at ho
    · intro o ho
      simp at ho
  | cons c0 rest =>
    have hout : optimize_chunks chunks minOffset = mergeSweep c0 rest := by
      unfold optimize_chunks
      rw [hsl]
    have hin : ∀ c ∈ c0 :: rest, c ∈ chunks ∧ minOffset < c.end_ := by
      intro c hc
      have hmem : c ∈ (chunks.filter fun c => minOffset < c.end_).mergeSort
          (fun a b => a.start ≤ b.start) := by
        rw [hsl]
        exact hc
      have := List.mem_filter.mp (List.mem_mergeSort.mp hmem)
      exact ⟨this.1, by simpa using this.2⟩
    rw [hout]
    constructor
    · intro x hx
      obtain ⟨o, ho, hx1, hx2⟩ := hx
      obtain ⟨c, hc, hcx⟩ := mergeSweep_subset rest c0 o ho x hx1 hx2
      exact ⟨c, (hin c hc).1, hcx⟩
    · intro o ho
      exact mergeSweep_ends rest c0 minOffset (hin c0 (by simp)).2
        (fun c hc => (hin c (by simp [hc])).2) o ho

/-- Witness for the amended C2 at a concrete input. -/
theorem optimize_chunks_union_subset_witness :
    (∀ x : Nat, (∃ o ∈ optimize_chunks [⟨0, 10⟩] 5, o.start ≤ x ∧ x < o.end_) →
      ∃ c ∈ ([⟨0, 10⟩] : List Chunk), c.start ≤ x ∧ x < c.end_) ∧
    (∀ o ∈ optimize_chunks [⟨0, 10⟩] 5, 5 < o.end_) :=
  optimize_chunks_union_subset [⟨0, 10⟩] 5 (by decide)

/-! ## C3: `region_to_bin` -/

/-- C3: `region_to_bin` steps through the shifts 14, 17, 20, 23, 26 and
returns the first matching level's bin via the offset formula
`((1 << (3*(6-i))) - 1)/7 + (start >> k)`, else 0; the three documented
boundary inputs give 4680, 4681 and 8541; and a record without a position is
written with bin 4680. -/
theorem region_to_bin_correct :
    (∀ start e : Int, region_to_bin start e = specRegionToBin start e) ∧
    region_to_bin (-1) 0 = 4680 ∧
    region_to_bin 7 13 = 4681 ∧
    region_to_bin 63245985 63255986 = 8541 ∧
    (∀ r : SamRecord, r.position = none → samRecordBin r = 4680) := by
  refine ⟨?_, by decide, by decide, by decide, ?_⟩
  · intro start e
    rfl
  · intro r h
    simp [samRecordBin, h]

/-- Witness for C3: the conjuncts with hypotheses, instantiated. -/
theorem region_to_bin_correct_witness :
    region_to_bin 7 13 = specRegionToBin 7 13 ∧ samRecordBin sampleUnmappedRecord = 4680 :=
  ⟨region_to_bin_correct.1 7 13, region_to_bin_correct.2.2.2.2 sampleUnmappedRecord rfl⟩

/-! ## C4: BAM auxiliary i32 narrowing -/

/-- C4: for every i32 value, `write_data_i32_value` emits the type byte and
little-endian payload of the tightest width (`C`/`S`/`I` for non-negatives,
`c`/`s`/`i` for negatives), and the three documented encodings hold. -/
theorem write_data_i32_value_correct :
    (∀ n : Int, -2147483648 ≤ n → n < 2147483648 →
      write_data_i32_value n = specI32Encoding n) ∧
    write_data_i32_value (-128) = [99, 0x80] ∧
    write_data_i32_value 256 = [83, 0x00, 0x01] ∧
    write_data_i32_value (-2147483648) = [105, 0x00, 0x00, 0x00, 0x80] := by
  refine ⟨?_, by decide, by decide, by decide⟩
  intro n h1 h2
  unfold write_data_i32_value specI32Encoding
  split_ifs <;>
    (simp only [u16LE, u32LE, List.cons.injEq, and_true, true_and, eq_self_iff_true]; omega)

/-- Witness for C4 at `n = 256`. -/
theorem write_data_i32_value_correct_witness :
    write_data_i32_value 256 = specI32Encoding 256 :=
  write_data_i32_value_correct.1 256 (by decide) (by decide)

/-! ## C5: CSI maximum and metadata bin ids -/

/-- C5 (code bug at depth 10): for depths 0 through 9, `Bin::max_id` equals
`((1 << ((d+1)*3)) - 1)/7` and `Bin::metadata_id` is one more (37449 and
37450 at depth 5), but at the asserted-allowed depth 10 the computation
`1_i32 << 33` overflows (a panic, embedded as `none`) instead of producing
the claimed 1227133513. -/
theorem max_id_limits :
    (∀ d : Int, 0 ≤ d → d ≤ 9 →
      max_id d = some ((2 ^ ((d.toNat + 1) * 3) - 1) / 7) ∧
      metadata_id d = some ((2 ^ ((d.toNat + 1) * 3) - 1) / 7 + 1)) ∧
    max_id 5 = some 37449 ∧
    metadata_id 5 = some 37450 ∧
    max_id 10 = none ∧
    metadata_id 10 = none := by
  refine ⟨?_, by decide, by decide, by decide, by decide⟩
  intro d h1 h2
  interval_cases d <;> exact ⟨by decide, by decide⟩

/-- Witness for C5 at depth 5. -/
theorem max_id_limits_witness :
    max_id 5 = some ((2 ^ ((Int.toNat 5 + 1) * 3) - 1) / 7) ∧
    metadata_id 5 = some ((2 ^ ((Int.toNat 5 + 1) * 3) - 1) / 7 + 1) :=
  max_id_limits.1 5 (by decide) (by decide)

/-! ## C8: BCF string-map index writer -/

/-- C8: `write_string_map_index` writes the index as a typed scalar in the
smallest signed width holding it (0x11/0x12/0x13 headers), fails with
`InvalidInput` exactly for indices ≥ 2^31, and the four documented cases
hold. -/
theorem write_string_map_index_correct :
    (∀ i : Nat, i < 2147483648 → write_string_map_index i = .ok (specStringMapIndexBytes i)) ∧
    (∀ i : Nat, 2147483648 ≤ i → write_string_map_index i = .error ("invalid index")) ∧
    write_string_map_index 0 = .ok [0x11, 0x00] ∧
    write_string_map_index 128 = .ok [0x12, 0x80, 0x00] ∧
    write_string_map_index 32768 = .ok [0x13, 0x00, 0x80, 0x00, 0x00] ∧
    write_string_map_index 2147483648 = .error ("invalid index") := by
  refine ⟨?_, ?_, by rfl, by rfl, by rfl, by rfl⟩
  · intro i h
    unfold write_string_map_index specStringMapIndexBytes
    split_ifs <;> first | rfl | omega
  · intro i h
    unfold write_string_map_index
    split_ifs <;> first | rfl | omega

/-- Witness for C8 at 128 and 2^31. -/
theorem write_string_map_index_correct_witness :
    write_string_map_index 128 = .ok (specStringMapIndexBytes 128) ∧
    write_string_map_index 2147483648 = .error ("invalid index") :=
  ⟨write_string_map_index_correct.1 128 (by decide),
    write_string_map_index_correct.2.1 2147483648 (by decide)⟩

/-! ## C9: BCF Int32 round-trip -/

/-- C9: for every i32 value outside the eight sentinel/reserved values
`i32::MIN .. i32::MIN+7`, converting to the BCF `Int32` sum type and back is
the identity. -/
theorem bcf_int32_roundtrip :
    ∀ n : Int, -2147483648 ≤ n → n < 2147483648 →
      (∀ k : Int, 0 ≤ k → k ≤ 7 → n ≠ -2147483648 + k) →
      i32OfBcfInt32 (bcfInt32OfI32 n) = n := by
  intro n h1 h2 hx
  unfold bcfInt32OfI32
  split_ifs with ha hb hc
  · exfalso
    exact hx 0 (by norm_num) (by norm_num) (by omega)
  · exfalso
    exact hx 1 (by norm_num) (by norm_num) (by omega)
  · rfl
  · rfl

/-- Witness for C9 at `n = 0`. -/
theorem bcf_int32_roundtrip_witness : i32OfBcfInt32 (bcfInt32OfI32 0) = 0 :=
  bcf_int32_roundtrip 0 (by decide) (by decide) (by intro k hk1 hk2; omega)

/-! ## C6: membership and depth of the bin in the marked set -/

theorem mem_intRangeIncl (a c x : Int) : x ∈ intRangeIncl a c ↔ a ≤ x ∧ x ≤ c := by
  unfold intRangeIncl
  split_ifs with h
  · simp
    omega
  · rw [List.mem_map]
    constructor
    · rintro ⟨i, hi, rfl⟩
      rw [List.mem_range] at hi
      have hca : ((c - a).toNat : Int) = c - a := Int.toNat_of_nonneg (by omega)
      have hi2 : (i : Int) < ((c - a).toNat : Int) + 1 := by exact_mod_cast hi
      rw [hca] at hi2
      constructor
      · omega
      · omega
    · rintro ⟨h1, h2⟩
      refine ⟨(x - a).toNat, List.mem_range.mpr ?_, ?_⟩
      · have hle : ((x - a).toNat : Int) ≤ ((c - a).toNat : Int) := by
          rw [Int.toNat_of_nonneg (by omega : (0 : Int) ≤ x - a),
            Int.toNat_of_nonneg (by omega : (0 : Int) ≤ c - a)]
          omega
        exact Nat.lt_succ_of_le (by exact_mod_cast hle)
      · rw [Int.toNat_of_nonneg (by omega : (0 : Int) ≤ x - a)]
        omega

theorem reg2bins_14_5_eq (beg e : Int) :
    reg2bins beg e 14 5 =
      intRangeIncl (0 + beg / 2 ^ 29) (0 + e / 2 ^ 29) ++
      (intRangeIncl (1 + beg / 2 ^ 26) (1 + e / 2 ^ 26) ++
      (intRangeIncl (9 + beg / 2 ^ 23) (9 + e / 2 ^ 23) ++
      (intRangeIncl (73 + beg / 2 ^ 20) (73 + e / 2 ^ 20) ++
      (intRangeIncl (585 + beg / 2 ^ 17) (585 + e / 2 ^ 17) ++
      (intRangeIncl (4681 + beg / 2 ^ 14) (4681 + e / 2 ^ 14) ++ []))))) := rfl

theorem mem_reg2bins_14_5 (beg e b : Int) :
    b ∈ reg2bins beg e 14 5 ↔
      (0 + beg / 2 ^ 29 ≤ b ∧ b ≤ 0 + e / 2 ^ 29) ∨
      (1 + beg / 2 ^ 26 ≤ b ∧ b ≤ 1 + e / 2 ^ 26) ∨
      (9 + beg / 2 ^ 23 ≤ b ∧ b ≤ 9 + e / 2 ^ 23) ∨
      (73 + beg / 2 ^ 20 ≤ b ∧ b ≤ 73 + e / 2 ^ 20) ∨
      (585 + beg / 2 ^ 17 ≤ b ∧ b ≤ 585 + e / 2 ^ 17) ∨
      (4681 + beg / 2 ^ 14 ≤ b ∧ b ≤ 4681 + e / 2 ^ 14) := by
  rw [reg2bins_14_5_eq]
  simp only [List.mem_append, List.not_mem_nil, or_false, mem_intRangeIncl]

theorem binLevel_le_five (b : Int) : binLevel b ≤ 5 := by
  unfold binLevel
  split_ifs <;> omega

theorem binLevel_eq_five {b : Int} (h : 4681 ≤ b) : binLevel b = 5 := by
  unfold binLevel
  rw [if_pos h]

theorem binLevel_eq_four {b : Int} (h1 : 585 ≤ b) (h2 : b < 4681) : binLevel b = 4 := by
  unfold binLevel
  rw [if_neg (by omega), if_pos h1]

theorem binLevel_eq_three {b : Int} (h1 : 73 ≤ b) (h2 : b < 585) : binLevel b = 3 := by
  unfold binLevel
  rw [if_neg (by omega), if_neg (by omega), if_pos h1]

theorem binLevel_eq_two {b : Int} (h1 : 9 ≤ b) (h2 : b < 73) : binLevel b = 2 := by
  unfold binLevel
  rw [if_neg (by omega), if_neg (by omega), if_neg (by omega), if_pos h1]

theorem binLevel_eq_one {b : Int} (h1 : 1 ≤ b) (h2 : b < 9) : binLevel b = 1 := by
  unfold binLevel
  rw [if_neg (by omega), if_neg (by omega), if_neg (by omega), if_neg (by omega), if_pos h1]

theorem binLevel_eq_zero {b : Int} (h : b < 1) : binLevel b = 0 := by
  unfold binLevel
  rw [if_neg (by omega), if_neg (by omega), if_neg (by omega), if_neg (by omega),
    if_neg (by omega)]

theorem binContains_shift_eq {b start e : Int} (h : binContains b start e) :
    start / 2 ^ (29 - 3 * binLevel b) = (e - 1) / 2 ^ (29 - 3 * binLevel b) :=
  h.1.trans h.2.symm

theorem levelBase_vals :
    levelBase 0 = 0 ∧ levelBase 1 = 1 ∧ levelBase 2 = 9 ∧ levelBase 3 = 73 ∧
      levelBase 4 = 585 ∧ levelBase 5 = 4681 := by
  refine ⟨rfl, ?_, ?_, ?_, ?_, ?_⟩ <;> simp [levelBase]

/-- C6 (amended): at BAI parameters, `region_to_bin(start, end)` is among the
bins marked by `reg2bins(start, end)`, its bin interval contains the whole
query interval, and it is the maximum-depth bin among the marked bins whose
interval contains the query (`reg2bins` also marks deeper bins that merely
overlap the query, so the unrestricted maximum-depth statement fails). -/
theorem reg2bin_deepest_containing (start e : Int) (h0 : 0 ≤ start) (h1 : start < e)
    (h2 : e < 2 ^ 29) :
    region_to_bin start e ∈ reg2bins start e 14 5 ∧
    binContains (region_to_bin start e) start e ∧
    ∀ b ∈ reg2bins start e 14 5, binContains b start e →
      binLevel b ≤ binLevel (region_to_bin start e) := by
  unfold region_to_bin
  split_ifs with c14 c17 c20 c23 c26
  -- level 5, shift 14
  · have hbl : binLevel ((2 ^ 15 - 1) / 7 + start / 2 ^ 14) = 5 :=
      binLevel_eq_five (by omega)
    refine ⟨?_, ?_, ?_⟩
    · rw [mem_reg2bins_14_5]
      exact Or.inr (Or.inr (Or.inr (Or.inr (Or.inr ⟨by omega, by omega⟩))))
    · unfold binContains binShift
      rw [hbl, levelBase_vals.2.2.2.2.2]
      norm_num
      all_goals omega
    · intro b _ _
      rw [hbl]
      exact binLevel_le_five b
  -- level 4, shift 17
  · have hbl : binLevel ((2 ^ 12 - 1) / 7 + start / 2 ^ 17) = 4 :=
      binLevel_eq_four (by omega) (by omega)
    refine ⟨?_, ?_, ?_⟩
    · rw [mem_reg2bins_14_5]
      exact Or.inr (Or.inr (Or.inr (Or.inr (Or.inl ⟨by omega, by omega⟩))))
    · unfold binContains binShift
      rw [hbl, levelBase_vals.2.2.2.2.1]
      norm_num
      all_goals omega
    · intro b _ hcont
      rw [hbl]
      by_contra hgt
      have h5 : binLevel b = 5 := by
        have := binLevel_le_five b
        omega
      have heq := binContains_shift_eq hcont
      rw [h5] at heq
      norm_num at heq
      exact c14 heq
  -- level 3, shift 20
  · have hbl : binLevel ((2 ^ 9 - 1) / 7 + start / 2 ^ 20) = 3 :=
      binLevel_eq_three (by omega) (by omega)
    refine ⟨?_, ?_, ?_⟩
    · rw [mem_reg2bins_14_5]
      exact Or.inr (Or.inr (Or.inr (Or.inl ⟨by omega, by omega⟩)))
    · unfold binContains binShift
      rw [hbl, levelBase_vals.2.2.2.1]
      norm_num
      all_goals omega
    · intro b _ hcont
      rw [hbl]
      by_contra hgt
      have heq := binContains_shift_eq hcont
      have h45 : binLevel b = 4 ∨ binLevel b = 5 := by
        have := binLevel_le_five b
        omega
      rcases h45 with h' | h'
      · rw [h'] at heq
        norm_num at heq
        exact c17 heq
      · rw [h'] at heq
        norm_num at heq
        exact c14 heq
  -- level 2, shift 23
  · have hbl : binLevel ((2 ^ 6 - 1) / 7 + start / 2 ^ 23) = 2 :=
      binLevel_eq_two (by omega) (by omega)
    refine ⟨?_, ?_, ?_⟩
    · rw [mem_reg2bins_14_5]
      exact Or.inr (Or.inr (Or.inl ⟨by omega, by omega⟩))
    · unfold binContains binShift
      rw [hbl, levelBase_vals.2.2.1]
      norm_num
      all_goals omega
    · intro b _ hcont
      rw [hbl]
      by_contra hgt
      have heq := binContains_shift_eq hcont
      have h345 : binLevel b = 3 ∨ binLevel b = 4 ∨ binLevel b = 5 := by
        have := binLevel_le_five b
        omega
      rcases h345 with h' | h' | h' <;> rw [h'] at heq <;> norm_num at heq
      · exact c20 heq
      · exact c17 heq
      · exact c14 heq
  -- level 1, shift 26
  · have hbl : binLevel ((2 ^ 3 - 1) / 7 + start / 2 ^ 26) = 1 :=
      binLevel_eq_one (by omega) (by omega)
    refine ⟨?_, ?_, ?_⟩
    · rw [mem_reg2bins_14_5]
      exact Or.inr (Or.inl ⟨by omega, by omega⟩)
    · unfold binContains binShift
      rw [hbl, levelBase_vals.2.1]
      norm_num
      all_goals omega
    · intro b _ hcont
      rw [hbl]
      by_contra hgt
      have heq := binContains_shift_eq hcont
      have h2345 : binLevel b = 2 ∨ binLevel b = 3 ∨ binLevel b = 4 ∨ binLevel b = 5 := by
        have := binLevel_le_five b
        omega
      rcases h2345 with h' | h' | h' | h' <;> rw [h'] at heq <;> norm_num at heq
      · exact c23 heq
      · exact c20 heq
      · exact c17 heq
      · exact c14 heq
  -- level 0, shift 29
  · have hbl : binLevel (0 : Int) = 0 := binLevel_eq_zero (by omega)
    refine ⟨?_, ?_, ?_⟩
    · rw [mem_reg2bins_14_5]
      exact Or.inl ⟨by omega, by omega⟩
    · unfold binContains binShift
      rw [hbl, levelBase_vals.1]
      norm_num
      all_goals omega
    · intro b _ hcont
      rw [hbl]
      by_contra hgt
      have heq := binContains_shift_eq hcont
      have hall : binLevel b = 1 ∨ binLevel b = 2 ∨ binLevel b = 3 ∨ binLevel b = 4 ∨
          binLevel b = 5 := by
        have := binLevel_le_five b
        omega
      rcases hall with h' | h' | h' | h' | h' <;> rw [h'] at heq <;> norm_num at heq
      · exact c26 heq
      · exact c23 heq
      · exact c20 heq
      · exact c17 heq
      · exact c14 heq

/-- Witness for the amended C6 at `(start, end) = (7, 13)`. -/
theorem reg2bin_deepest_containing_witness :
    region_to_bin 7 13 ∈ reg2bins 7 13 14 5 ∧
    binContains (region_to_bin 7 13) 7 13 ∧
    ∀ b ∈ reg2bins 7 13 14 5, binContains b 7 13 →
      binLevel b ≤ binLevel (region_to_bin 7 13) :=
  reg2bin_deepest_containing 7 13 (by decide) (by decide) (by decide)

/-- C6 counterexample: for the interval `[0, 131072)` the bin returned by
`region_to_bin` sits at level 4, while `reg2bins` also marks the level-5 bin
4681, so the returned bin is not the maximum-depth bin of the marked set. -/
theorem reg2bin_max_depth_counterexample :
    region_to_bin 0 131072 = 585 ∧
    (4681 : Int) ∈ reg2bins 0 131072 14 5 ∧
    binLevel 585 < binLevel 4681 := by
  refine ⟨by decide, by decide, by decide⟩

/-! ## C7 and C10: the BAM record writer -/

theorem length_u16LE (x : Nat) : (u16LE x).length = 2 := rfl

theorem length_u32LE (x : Nat) : (u32LE x).length = 4 := rfl

theorem length_i32LE (n : Int) : (i32LE n).length = 4 := rfl

theorem length_flatMap_const {α : Type} (f : α → List Nat) (k : Nat) (vs : List α)
    (h : ∀ v, (f v).length = k) : (vs.flatMap f).length = k * vs.length := by
  induction vs with
  | nil => simp
  | cons v rest ih =>
    simp only [List.flatMap_cons, List.length_append, h v, ih, List.length_cons]
    ring

theorem length_write_cigar (ops : List CigarOp) : (write_cigar ops).length = 4 * ops.length := by
  unfold write_cigar
  exact length_flatMap_const _ 4 ops fun _ => rfl

theorem length_write_seq : ∀ s : List Nat, (write_seq s).length = (s.length + 1) / 2
  | [] => by simp [write_seq]
  | [b] => by simp [write_seq]
  | b1 :: b2 :: rest => by
    have ih := length_write_seq rest
    simp only [write_seq, List.length_cons, ih]
    omega

theorem length_writeAuxField (f : AuxField) (b : List Nat) (h : writeAuxField f = .ok b) :
    b.length = calculate_data_len [f] := by
  obtain ⟨t1, t2, v⟩ := f
  cases v with
  | char c =>
    simp only [writeAuxField, Except.ok.injEq] at h
    subst h
    rfl
  | int32 n =>
    simp only [writeAuxField, Except.ok.injEq] at h
    subst h
    simp only [calculate_data_len, write_data_i32_value]
    split_ifs <;> simp [u16LE, u32LE]
  | float bits =>
    simp only [writeAuxField, Except.ok.injEq] at h
    subst h
    rfl
  | string s =>
    simp only [writeAuxField] at h
    split_ifs at h with hs
    rw [Except.ok.injEq] at h
    subst h
    simp [calculate_data_len]
    omega
  | hex s =>
    simp only [writeAuxField] at h
    split_ifs at h with hs
    rw [Except.ok.injEq] at h
    subst h
    simp [calculate_data_len]
    omega
  | int8Array vs =>
    simp only [writeAuxField, Except.ok.injEq] at h
    subst h
    simp [calculate_data_len, u32LE]
    omega
  | uint8Array vs =>
    simp only [writeAuxField, Except.ok.injEq] at h
    subst h
    simp [calculate_data_len, u32LE]
    omega
  | int16Array vs =>
    simp only [writeAuxField, Except.ok.injEq] at h
    subst h
    have hfm : (vs.flatMap fun n => u16LE (n % 65536).toNat).length = 2 * vs.length :=
      length_flatMap_const _ 2 vs fun _ => rfl
    simp only [calculate_data_len, List.length_append, List.length_cons, List.length_nil,
      length_u32LE, hfm]
    omega
  | uint16Array vs =>
    simp only [writeAuxField, Except.ok.injEq] at h
    subst h
    have hfm : (vs.flatMap fun n => u16LE (n % 65536)).length = 2 * vs.length :=
      length_flatMap_const _ 2 vs fun _ => rfl
    simp only [calculate_data_len, List.length_append, List.length_cons, List.length_nil,
      length_u32LE, hfm]
    omega
  | int32Array vs =>
    simp only [writeAuxField, Except.ok.injEq] at h
    subst h
    have hfm : (vs.flatMap fun n => u32LE (n % 4294967296).toNat).length = 4 * vs.length :=
      length_flatMap_const _ 4 vs fun _ => rfl
    simp only [calculate_data_len, List.length_append, List.length_cons, List.length_nil,
      length_u32LE, hfm]
    omega
  | uint32Array vs =>
    simp only [writeAuxField, Except.ok.injEq] at h
    subst h
    have hfm : (vs.flatMap fun n => u32LE (n % 4294967296)).length = 4 * vs.length :=
      length_flatMap_const _ 4 vs fun _ => rfl
    simp only [calculate_data_len, List.length_append, List.length_cons, List.length_nil,
      length_u32LE, hfm]
    omega
  | floatArray vs =>
    simp only [writeAuxField, Except.ok.injEq] at h
    subst h
    have hfm : (vs.flatMap fun n => u32LE (n % 4294967296)).length = 4 * vs.length :=
      length_flatMap_const _ 4 vs fun _ => rfl
    simp only [calculate_data_len, List.length_append, List.length_cons, List.length_nil,
      length_u32LE, hfm]
    omega

theorem length_write_data : ∀ (fs : List AuxField) (bs : List Nat),
    write_data fs = .ok bs → bs.length = calculate_data_len fs := by
  intro fs
  induction fs with
  | nil =>
    intro bs h
    simp only [write_data, Except.ok.injEq] at h
    subst h
    rfl
  | cons f rest ih =>
    intro bs h
    simp only [write_data] at h
    rcases hf : writeAuxField f with e | b
    · rw [hf] at h
      simp at h
    · rw [hf] at h
      rcases hr : write_data rest with e | bs2
      · rw [hr] at h
        simp at h
      · rw [hr] at h
        rw [Except.ok.injEq] at h
        subst h
        have h1 := length_writeAuxField f b hf
        have h2 := ih bs2 hr
        have hcc : calculate_data_len (f :: rest) =
            calculate_data_len [f] + calculate_data_len rest := by
          simp [calculate_data_len]
        simp only [List.length_append, h1, h2, hcc]

theorem length_qualSection (seqLen : Nat) (qs : List Nat) (b : List Nat)
    (h : qualSection seqLen qs = .ok b) : b.length = seqLen := by
  unfold qualSection at h
  split_ifs at h with h1 h2 h3
  · rw [Except.ok.injEq] at h
    subst h
    simp
  · rw [Except.ok.injEq] at h
    subst h
    simp only [List.length_map]
    omega

theorem write_data_error_msg : ∀ (fs : List AuxField) (e : String),
    write_data fs = .error e → e = ("data contains interior nul") := by
  intro fs
  induction fs with
  | nil =>
    intro e h
    simp [write_data] at h
  | cons f rest ih =>
    intro e h
    simp only [write_data] at h
    rcases hf : writeAuxField f with e3 | b
    · rw [hf] at h
      simp only [Except.error.injEq] at h
      subst h
      obtain ⟨t1, t2, v⟩ := f
      cases v <;> simp only [writeAuxField] at hf
      case string s =>
        split_ifs at hf with hs
        rw [Except.error.injEq] at hf
        exact hf.symm
      case hex s =>
        split_ifs at hf with hs
        rw [Except.error.injEq] at hf
        exact hf.symm
      all_goals exact Except.noConfusion hf
    · rw [hf] at h
      rcases hr : write_data rest with e3 | bs2
      · rw [hr] at h
        simp only [Except.error.injEq] at h
        subst h
        exact ih e3 hr
      · rw [hr] at h
        simp at h

/-- C7: for every SAM record the writer accepts (with the variable-length
fields fitting their on-disk widths, as the missing-from-src SAM record types
guarantee by construction), the block_size value written first equals the
byte count of the remainder of the record,
`32 + l_read_name + 4*n_cigar_op + (l_seq+1)/2 + l_seq + data_len`, and
`calculate_data_len` equals the exact number of bytes `write_data` emits. -/
theorem write_sam_record_block_size (refSeqs : List String) (r : SamRecord)
    (hname : (nameBytesOf r).length + 1 ≤ 255)
    (hcigar : r.cigar.length ≤ 65535)
    (hsize : 32 + ((nameBytesOf r).length + 1) + 4 * r.cigar.length +
      (r.sequence.length + 1) / 2 + r.sequence.length + calculate_data_len r.data <
      2147483648) :
    samBlockSize r = ((32 + ((nameBytesOf r).length + 1) + 4 * r.cigar.length +
      (r.sequence.length + 1) / 2 + r.sequence.length + calculate_data_len r.data : Nat) :
      Int) ∧
    (∀ bs, write_sam_record refSeqs r = .ok bs →
      bs.length = 4 + (32 + ((nameBytesOf r).length + 1) + 4 * r.cigar.length +
        (r.sequence.length + 1) / 2 + r.sequence.length + calculate_data_len r.data) ∧
      samBlockSize r = (bs.length : Int) - 4 ∧
      bs.take 4 = i32LE (samBlockSize r)) ∧
    (∀ ds, write_data r.data = .ok ds → ds.length = calculate_data_len r.data) := by
  have hseq : i32ofNat r.sequence.length = (r.sequence.length : Int) := by
    unfold i32ofNat wrap32
    split_ifs <;> omega
  have hdata : i32ofNat (calculate_data_len r.data) = (calculate_data_len r.data : Int) := by
    unfold i32ofNat wrap32
    split_ifs <;> omega
  have hformula : samBlockSize r = ((32 + ((nameBytesOf r).length + 1) + 4 * r.cigar.length +
      (r.sequence.length + 1) / 2 + r.sequence.length + calculate_data_len r.data : Nat) :
      Int) := by
    unfold samBlockSize
    rw [hseq, hdata, Int.tdiv_eq_ediv (by omega) (by omega)]
    unfold wrap32
    split_ifs <;> omega
  refine ⟨hformula, ?_, fun ds h => length_write_data r.data ds h⟩
  intro bs h
  unfold write_sam_record at h
  split_ifs at h with hnul
  rcases h1 : resolveRef refSeqs r.referenceSequenceName with e | refId
  all_goals rw [h1] at h
  · simp at h
  rcases h2 : resolveRef refSeqs r.mateReferenceSequenceName with e | mateRefId
  all_goals rw [h2] at h
  · simp at h
  rcases h3 : qualSection r.sequence.length r.qualityScores with e | qual
  all_goals rw [h3] at h
  · simp at h
  rcases h4 : write_data r.data with e | dataBytes
  all_goals rw [h4] at h
  · simp at h
  simp only [Except.ok.injEq] at h
  subst h
  have hq := length_qualSection _ _ _ h3
  have hd := length_write_data _ _ h4
  have hlen : (i32LE (samBlockSize r) ++ i32LE refId ++ i32LE (samPos r) ++
      [((nameBytesOf r).length + 1) % 256, r.mappingQuality % 256] ++
      u16LE (samRecordBin r) ++ u16LE (r.cigar.length % 65536) ++
      u16LE (r.flags % 65536) ++ i32LE (i32ofNat r.sequence.length) ++
      i32LE mateRefId ++ i32LE (samMatePos r) ++ i32LE r.templateLength ++
      (nameBytesOf r ++ [0]) ++ write_cigar r.cigar ++ write_seq r.sequence ++
      qual ++ dataBytes).length =
      4 + (32 + ((nameBytesOf r).length + 1) + 4 * r.cigar.length +
        (r.sequence.length + 1) / 2 + r.sequence.length + calculate_data_len r.data) := by
    simp only [List.length_append, length_i32LE, length_u16LE, List.length_cons,
      List.length_nil, List.length_singleton, length_write_cigar, length_write_seq, hq, hd]
    omega
  refine ⟨hlen, ?_, ?_⟩
  · rw [hlen, hformula]
    push_cast
    ring
  · have h4len : (i32LE (samBlockSize r)).length = 4 := rfl
    simp only [List.append_assoc]
    rw [← h4len, List.take_left]

/-- C10: for records whose read name, reference names and mate reference
names pass the earlier checks, a record with empty quality scores and a
non-empty sequence gets a quality section of exactly `l_seq` bytes of 0xFF,
and `write_sam_record` fails with the quality-mismatch `InvalidInput` error
(before the quality or auxiliary sections are produced) exactly when the
quality scores are non-empty and their length differs from the sequence
length. -/
theorem write_sam_record_quality_spec (refSeqs : List String) (r : SamRecord)
    (hname : (nameBytesOf r).contains 0 = false)
    (href : ∃ i, resolveRef refSeqs r.referenceSequenceName = .ok i)
    (hmate : ∃ i, resolveRef refSeqs r.mateReferenceSequenceName = .ok i) :
    (r.qualityScores = [] → 0 < r.sequence.length →
      qualSection r.sequence.length r.qualityScores =
        .ok (List.replicate r.sequence.length 255) ∧
      (∀ bs, write_sam_record refSeqs r = .ok bs →
        ∃ pre ds, bs = pre ++ List.replicate r.sequence.length 255 ++ ds ∧
          write_data r.data = .ok ds)) ∧
    (write_sam_record refSeqs r =
        .error ("quality scores length does not match sequence length") ↔
      r.qualityScores ≠ [] ∧ r.qualityScores.length ≠ r.sequence.length) := by
  obtain ⟨refId, h1⟩ := href
  obtain ⟨mateId, h2⟩ := hmate
  constructor
  · intro hq hs
    have hqs : qualSection r.sequence.length r.qualityScores =
        .ok (List.replicate r.sequence.length 255) := by
      unfold qualSection
      rw [hq]
      simp only [List.length_nil]
      rw [if_neg (by omega), if_pos (by omega)]
      simp
    refine ⟨hqs, ?_⟩
    intro bs h
    unfold write_sam_record at h
    rw [if_neg (by rw [hname]; simp), h1, h2, hqs] at h
    rcases h4 : write_data r.data with e | ds
    · rw [h4] at h
      simp at h
    · rw [h4] at h
      simp only [Except.ok.injEq] at h
      subst h
      refine ⟨i32LE (samBlockSize r) ++ i32LE refId ++ i32LE (samPos r) ++
        [((nameBytesOf r).length + 1) % 256, r.mappingQuality % 256] ++
        u16LE (samRecordBin r) ++ u16LE (r.cigar.length % 65536) ++
        u16LE (r.flags % 65536) ++ i32LE (i32ofNat r.sequence.length) ++
        i32LE mateId ++ i32LE (samMatePos r) ++ i32LE r.templateLength ++
        (nameBytesOf r ++ [0]) ++ write_cigar r.cigar ++ write_seq r.sequence, ds, ?_, rfl⟩
      simp [List.append_assoc]
  · constructor
    · intro h
      unfold write_sam_record at h
      rw [if_neg (by rw [hname]; simp), h1, h2] at h
      rcases h3 : qualSection r.sequence.length r.qualityScores with e | qual
      · rw [h3] at h
        simp only [Except.error.injEq] at h
        subst h
        unfold qualSection at h3
        split_ifs at h3 with a1 a2 a3
        · refine ⟨?_, by omega⟩
          intro hq
          rw [hq] at a1
          simp at a1
        · refine ⟨a3, by omega⟩
      · rw [h3] at h
        rcases h4 : write_data r.data with e2 | ds
        · rw [h4] at h
          simp only [Except.error.injEq] at h
          have hmsg := write_data_error_msg r.data e2 h4
          rw [hmsg] at h
          exact absurd h (by decide)
        · rw [h4] at h
          simp at h
    · rintro ⟨hne, hlen⟩
      unfold write_sam_record
      rw [if_neg (by rw [hname]; simp), h1, h2]
      have hqs : qualSection r.sequence.length r.qualityScores =
          .error ("quality scores length does not match sequence length") := by
        unfold qualSection
        rcases Nat.lt_trichotomy r.sequence.length r.qualityScores.length with hlt | heq | hgt
        · rw [if_pos hlt]
        · exact absurd heq.symm hlen
        · rw [if_neg (by omega), if_pos hgt, if_neg hne]
      rw [hqs]

/-- Witness for C7 at a concrete record. -/
theorem write_sam_record_block_size_witness :
    samBlockSize sampleUnmappedRecord =
      ((32 + ((nameBytesOf sampleUnmappedRecord).length + 1) +
        4 * sampleUnmappedRecord.cigar.length +
        (sampleUnmappedRecord.sequence.length + 1) / 2 +
        sampleUnmappedRecord.sequence.length +
        calculate_data_len sampleUnmappedRecord.data : Nat) : Int) ∧
    (∀ bs, write_sam_record [] sampleUnmappedRecord = .ok bs →
      bs.length = 4 + (32 + ((nameBytesOf sampleUnmappedRecord).length + 1) +
        4 * sampleUnmappedRecord.cigar.length +
        (sampleUnmappedRecord.sequence.length + 1) / 2 +
        sampleUnmappedRecord.sequence.length +
        calculate_data_len sampleUnmappedRecord.data) ∧
      samBlockSize sampleUnmappedRecord = (bs.length : Int) - 4 ∧
      bs.take 4 = i32LE (samBlockSize sampleUnmappedRecord)) ∧
    (∀ ds, write_data sampleUnmappedRecord.data = .ok ds →
      ds.length = calculate_data_len sampleUnmappedRecord.data) :=
  write_sam_record_block_size [] sampleUnmappedRecord (by decide) (by decide) (by decide)

/-- Witness for C10 at a concrete record with empty quality scores. -/
theorem write_sam_record_quality_spec_witness :
    (sampleUnmappedRecord.qualityScores = [] → 0 < sampleUnmappedRecord.sequence.length →
      qualSection sampleUnmappedRecord.sequence.length sampleUnmappedRecord.qualityScores =
        .ok (List.replicate sampleUnmappedRecord.sequence.length 255) ∧
      (∀ bs, write_sam_record [] sampleUnmappedRecord = .ok bs →
        ∃ pre ds, bs = pre ++ List.replicate sampleUnmappedRecord.sequence.length 255 ++ ds ∧
          write_data sampleUnmappedRecord.data = .ok ds)) ∧
    (write_sam_record [] sampleUnmappedRecord =
        .error ("quality scores length does not match sequence length") ↔
      sampleUnmappedRecord.qualityScores ≠ [] ∧
        sampleUnmappedRecord.qualityScores.length ≠ sampleUnmappedRecord.sequence.length) :=
  write_sam_record_quality_spec [] sampleUnmappedRecord (by decide) ⟨-1, rfl⟩ ⟨-1, rfl⟩
